import Mathlib

/-!
Verification of the TSI short-only trading bot (`Estrategia_TSIbitcoin.py`).

The development shallowly embeds the program:

* Python floats are modelled by `FVal` (a rational value, the two infinities,
  or NaN) with the IEEE-754 comparison/arithmetic semantics used by the
  program, and Python's first-wins `max`/`min`.
* The two pure indicator functions `calculate_tsi` and
  `calculate_parabolic_sar` are additionally embedded over `ℚ` (exact real
  semantics) for the analytic claims about them; `FVal` variants feed the
  bot's indicator-refresh path.
* The mutable bot object `TSITradingBot` becomes the record `BotState`; each
  method becomes a state-passing function.  Order placement is modelled by
  passing the Execution Gateway's `FillResult` as an explicit argument and
  recording the emitted intents in a ghost log, and bars closed by the
  aggregator are recorded in a ghost `closed_log`.
* Timestamps are modelled as whole minutes; since the 5-minute bar width
  divides 60, `datetime.replace(minute=(minute//5)*5, second=0, microsecond=0)`
  agrees with flooring the minute count to a multiple of 5.
-/

/-- A Python float: a finite rational, `+inf`, `-inf`, or NaN. -/
inductive FVal where
  | fin (q : ℚ)
  | pinf
  | ninf
  | nan
deriving DecidableEq

/-- `np.isnan` (also used for the `is None` checks once lifted to `Option FVal`). -/
def isnanB : FVal → Bool
  | .nan => true
  | _ => false

/-- IEEE strict less-than: any comparison with NaN is false. -/
def flt : FVal → FVal → Bool
  | .fin a, .fin b => a < b
  | .fin _, .pinf => true
  | .ninf, .fin _ => true
  | .ninf, .pinf => true
  | _, _ => false

/-- IEEE strict greater-than. -/
def fgt (a b : FVal) : Bool := flt b a

/-- IEEE less-or-equal: any comparison with NaN is false. -/
def fle : FVal → FVal → Bool
  | .fin a, .fin b => a ≤ b
  | .fin _, .pinf => true
  | .ninf, .fin _ => true
  | .ninf, .pinf => true
  | .ninf, .ninf => true
  | .pinf, .pinf => true
  | _, _ => false

/-- IEEE greater-or-equal. -/
def fge (a b : FVal) : Bool := fle b a

/-- Python `max(a, b)`: keeps the first argument unless the second compares
strictly greater (so NaN in the second slot never wins). -/
def pymax (a b : FVal) : FVal := if fgt b a then b else a

/-- Python `min(a, b)`: keeps the first argument unless the second compares
strictly smaller. -/
def pymin (a b : FVal) : FVal := if flt b a then b else a

/-- IEEE addition. -/
def fadd : FVal → FVal → FVal
  | .fin a, .fin b => .fin (a + b)
  | .fin _, .pinf => .pinf
  | .fin _, .ninf => .ninf
  | .pinf, .fin _ => .pinf
  | .ninf, .fin _ => .ninf
  | .pinf, .pinf => .pinf
  | .ninf, .ninf => .ninf
  | _, _ => .nan

/-- IEEE negation. -/
def fneg : FVal → FVal
  | .fin a => .fin (-a)
  | .pinf => .ninf
  | .ninf => .pinf
  | .nan => .nan

/-- IEEE subtraction. -/
def fsub (a b : FVal) : FVal := fadd a (fneg b)

/-- IEEE multiplication. -/
def fmul : FVal → FVal → FVal
  | .fin a, .fin b => .fin (a * b)
  | .fin a, .pinf => if 0 < a then .pinf else if a < 0 then .ninf else .nan
  | .fin a, .ninf => if 0 < a then .ninf else if a < 0 then .pinf else .nan
  | .pinf, .fin b => if 0 < b then .pinf else if b < 0 then .ninf else .nan
  | .ninf, .fin b => if 0 < b then .ninf else if b < 0 then .pinf else .nan
  | .pinf, .pinf => .pinf
  | .pinf, .ninf => .ninf
  | .ninf, .pinf => .ninf
  | .ninf, .ninf => .pinf
  | _, _ => .nan

/-- IEEE-style division as numpy performs it (signed zeros are not modelled:
a zero denominator takes the `+0` behaviour). -/
def fdiv : FVal → FVal → FVal
  | .fin a, .fin b =>
      if b = 0 then (if a = 0 then .nan else if 0 < a then .pinf else .ninf)
      else .fin (a / b)
  | .fin _, .pinf => .fin 0
  | .fin _, .ninf => .fin 0
  | .pinf, .fin b => if 0 ≤ b then .pinf else .ninf
  | .ninf, .fin b => if 0 ≤ b then .ninf else .pinf
  | _, _ => .nan

/-- IEEE absolute value. -/
def fabs : FVal → FVal
  | .fin a => .fin |a|
  | .pinf => .pinf
  | .ninf => .pinf
  | .nan => .nan

/-! ### Pure indicator functions over `ℚ` (exact-arithmetic model)

`calculate_tsi` (source lines 64-80) and `calculate_parabolic_sar`
(source lines 83-123) are pure functions of their input series; for the
analytic claims about them we embed them over `ℚ`. -/

/-- The `ewm(span=n, adjust=False)` smoothing factor `α = 2/(n+1)`. -/
def alphaOf (n : ℕ) : ℚ := 2 / (n + 1)

/-- Tail of the `adjust=False` exponential smoothing recurrence
`ema[i] = ema[i-1] + α*(x[i] - ema[i-1])` with accumulator `prev`. -/
def ewmaGo (α : ℚ) : ℚ → List ℚ → List ℚ
  | _, [] => []
  | prev, x :: xs => (prev + α * (x - prev)) :: ewmaGo α (prev + α * (x - prev)) xs

/-- `series.ewm(span, adjust=False).mean()`: the first entry seeds the
recurrence (`ema[0] = x[0]`). -/
def ewma (α : ℚ) : List ℚ → List ℚ
  | [] => []
  | x :: xs => x :: ewmaGo α x xs

/-- `close.diff()` restricted to its defined entries: `momentum[i+1] =
close[i+1] - close[i]`.  (The undefined first entry is reinstated as `none`
by `calculate_tsi`, matching the leading NaN that pandas `ewm` skips.) -/
def diffs (close : List ℚ) : List ℚ :=
  List.zipWith (fun a b => a - b) close.tail close

/-- `calculate_tsi` (source lines 64-80):
`TSI = 100 * EMA(EMA(momentum, slow), fast) / EMA(EMA(|momentum|, slow), fast)`.
An entry is `none` where the source value is NaN: at index 0 (undefined
momentum) and where the denominator vanishes (a flat momentum run, in which
case the numerator also vanishes and numpy yields `0/0 = NaN`). -/
def calculate_tsi (close : List ℚ) (fast slow : ℕ) : List (Option ℚ) :=
  match close with
  | [] => []
  | _ :: _ =>
    let m := diffs close
    let num := ewma (alphaOf fast) (ewma (alphaOf slow) m)
    let den := ewma (alphaOf fast) (ewma (alphaOf slow) (m.map (fun x => |x|)))
    none :: List.zipWith (fun a b => if b = 0 then none else some (100 * a / b)) num den

/-- Loop body of `calculate_parabolic_sar` (source lines 95-122): the source
iterates `for i in range(1, length)`; here `fuel` counts the remaining
iterations (`fuel = length - i`), making the recursion structural.  The state
is `(prevSar, af, uptrend, ep)` and step `i` emits `sar[i]`.  Out-of-range
`getD` defaults are never consulted for `1 ≤ i < length`. -/
def psarLoop (af_start af_max : ℚ) (high low : List ℚ) :
    ℕ → ℕ → ℚ → ℚ → Bool → ℚ → List ℚ
  | 0, _, _, _, _, _ => []
  | fuel + 1, i, prevSar, af, uptrend, ep =>
    if uptrend then
      let sar0 := prevSar + af * (ep - prevSar)
      let sar1 := min (min sar0 (low.getD (i-1) 0))
        (if 2 ≤ i then low.getD (i-2) 0 else low.getD (i-1) 0)
      if low.getD i 0 < sar1 then
        ep :: psarLoop af_start af_max high low fuel (i+1) ep af_start false (low.getD i 0)
      else
        if ep < high.getD i 0 then
          sar1 :: psarLoop af_start af_max high low fuel (i+1) sar1
            (min (af + af_start) af_max) true (high.getD i 0)
        else
          sar1 :: psarLoop af_start af_max high low fuel (i+1) sar1 af true ep
    else
      let sar0 := prevSar + af * (ep - prevSar)
      let sar1 := max (max sar0 (high.getD (i-1) 0))
        (if 2 ≤ i then high.getD (i-2) 0 else high.getD (i-1) 0)
      if sar1 < high.getD i 0 then
        ep :: psarLoop af_start af_max high low fuel (i+1) ep af_start true (high.getD i 0)
      else
        if low.getD i 0 < ep then
          sar1 :: psarLoop af_start af_max high low fuel (i+1) sar1
            (min (af + af_start) af_max) false (low.getD i 0)
        else
          sar1 :: psarLoop af_start af_max high low fuel (i+1) sar1 af false ep

/-- `calculate_parabolic_sar` (source lines 83-123) over exact arithmetic:
`sar[0] = high[0]`, extreme point seeded from `low[0]`, uptrend assumed, then
`length - 1` loop iterations from index 1.  (On an empty series the source
raises `IndexError`; we return `[]`.) -/
def calculate_parabolic_sar (high low : List ℚ) (af_start af_max : ℚ) : List ℚ :=
  match high, low with
  | h0 :: _, l0 :: _ =>
    h0 :: psarLoop af_start af_max high low (high.length - 1) 1 h0 af_start true l0
  | _, _ => []

/-! ### Indicator pipeline over `FVal` (as run inside the bot)

`_update_indicators` (source lines 197-231) recomputes the indicator columns
over the retained bar history with float arithmetic; these are the `FVal`
counterparts of the functions above. -/

/-- Sum of a float list (used for the rolling-mean window). -/
def fsum (xs : List FVal) : FVal := xs.foldl fadd (.fin 0)

/-- `series.rolling(n).mean()`: NaN until the window is full, then the mean
of the trailing `n` entries. -/
def rollingMeanF (n : ℕ) (xs : List FVal) : List FVal :=
  (List.range xs.length).map (fun i =>
    if i + 1 < n then .nan
    else fdiv (fsum ((xs.take (i+1)).drop (i+1-n))) (.fin n))

/-- `series.diff()` over floats: leading NaN, then consecutive differences. -/
def diffF (xs : List FVal) : List FVal :=
  match xs with
  | [] => []
  | _ :: rest => .nan :: List.zipWith fsub rest xs

/-- Tail of the float `ewm(span, adjust=False).mean()` recurrence.  NaN inputs
are skipped: the carried state is emitted unchanged (`none` state emits NaN).
In the program only the leading `diff()` NaN occurs, for which this agrees
exactly with pandas. -/
def ewmGoF (α : ℚ) : Option FVal → List FVal → List FVal
  | _, [] => []
  | st, x :: xs =>
    if isnanB x then
      (match st with | none => FVal.nan | some e => e) :: ewmGoF α st xs
    else
      match st with
      | none => x :: ewmGoF α (some x) xs
      | some e => fadd e (fmul (.fin α) (fsub x e)) ::
          ewmGoF α (some (fadd e (fmul (.fin α) (fsub x e)))) xs

/-- `series.ewm(span, adjust=False).mean()` over floats. -/
def ewmF (α : ℚ) (xs : List FVal) : List FVal := ewmGoF α none xs

/-- `calculate_tsi` as evaluated with float arithmetic inside the bot. -/
def calculate_tsiF (close : List FVal) (fast slow : ℕ) : List FVal :=
  let m := diffF close
  let ef := ewmF (alphaOf fast) (ewmF (alphaOf slow) m)
  let af := ewmF (alphaOf fast) (ewmF (alphaOf slow) (m.map fabs))
  List.zipWith (fun a b => fdiv (fmul (.fin 100) a) b) ef af

/-- Python `min(a, b, c)` (left fold, first wins on ties/NaN). -/
def pymin3 (a b c : FVal) : FVal := pymin (pymin a b) c

/-- Python `max(a, b, c)`. -/
def pymax3 (a b c : FVal) : FVal := pymax (pymax a b) c

/-- Loop body of `calculate_parabolic_sar` with float arithmetic; as in
`psarLoop`, `fuel` counts the remaining iterations of `range(1, length)`. -/
def psarLoopF (af_start af_max : ℚ) (high low : List FVal) :
    ℕ → ℕ → FVal → ℚ → Bool → FVal → List FVal
  | 0, _, _, _, _, _ => []
  | fuel + 1, i, prevSar, af, uptrend, ep =>
    if uptrend then
      let sar0 := fadd prevSar (fmul (.fin af) (fsub ep prevSar))
      let sar1 := pymin3 sar0 (low.getD (i-1) .nan)
        (if 2 ≤ i then low.getD (i-2) .nan else low.getD (i-1) .nan)
      if flt (low.getD i .nan) sar1 then
        ep :: psarLoopF af_start af_max high low fuel (i+1) ep af_start false (low.getD i .nan)
      else
        if fgt (high.getD i .nan) ep then
          sar1 :: psarLoopF af_start af_max high low fuel (i+1) sar1
            (min (af + af_start) af_max) true (high.getD i .nan)
        else
          sar1 :: psarLoopF af_start af_max high low fuel (i+1) sar1 af true ep
    else
      let sar0 := fadd prevSar (fmul (.fin af) (fsub ep prevSar))
      let sar1 := pymax3 sar0 (high.getD (i-1) .nan)
        (if 2 ≤ i then high.getD (i-2) .nan else high.getD (i-1) .nan)
      if fgt (high.getD i .nan) sar1 then
        ep :: psarLoopF af_start af_max high low fuel (i+1) ep af_start true (high.getD i .nan)
      else
        if flt (low.getD i .nan) ep then
          sar1 :: psarLoopF af_start af_max high low fuel (i+1) sar1
            (min (af + af_start) af_max) false (low.getD i .nan)
        else
          sar1 :: psarLoopF af_start af_max high low fuel (i+1) sar1 af false ep

/-- `calculate_parabolic_sar` with float arithmetic. -/
def calculate_parabolic_sarF (high low : List FVal) (af_start af_max : ℚ) : List FVal :=
  match high, low with
  | h0 :: _, l0 :: _ =>
    h0 :: psarLoopF af_start af_max high low (high.length - 1) 1 h0 af_start true l0
  | _, _ => []

/-! ### Configuration constants (source lines 36-46) -/

def TIMEFRAME_MINUTES : ℕ := 5
def MA_PERIOD : ℕ := 70
def TSI_FAST : ℕ := 13
def TSI_SLOW : ℕ := 25
def TSI_THRESHOLD : FVal := .fin (-10)
def PSAR_AF : ℚ := 0.02
def PSAR_MAX_AF : ℚ := 0.2

/-! ### The bot state -/

/-- One OHLCV bar.  The source keeps the in-progress bar as a dict and closed
bars as DataFrame rows with the same fields; `volume` is initialised to `0`
and (as the code stands) never touched again.  The DataFrame's time index is
not modelled (no claim inspects it). -/
structure Bar where
  open_ : FVal
  high : FVal
  low : FVal
  close : FVal
  volume : ℕ
deriving DecidableEq

/-- An order intent sent to the Execution Gateway (`ib.placeOrder`). -/
inductive Intent where
  | entryShort (price : FVal)
  | exitShort
deriving DecidableEq

/-- The Execution Gateway's answer for one placed order
(`trade.orderStatus` after the confirmation wait). -/
structure FillResult where
  status : String
  avgFillPrice : FVal
deriving DecidableEq

/-- The mutable fields of `TSITradingBot` (source lines 131-148), plus ghost
logs of the emitted intents, the bars closed by the aggregator, and the
realized-P&L figures reported on exits. -/
structure BotState where
  bars_5min : List Bar
  current_bar : Option Bar
  bar_start_time : Option ℕ
  in_position : Bool
  position_entry_price : Option FVal
  last_price : Option FVal
  price_was_above_ma : Option Bool
  current_tsi : Option FVal
  current_ma70 : Option FVal
  ma70_slope : Option FVal
  current_sar : Option FVal
  intents : List Intent
  closed_log : List Bar
  pnl_log : List FVal
deriving DecidableEq

/-- `TSITradingBot.__init__` (source lines 131-148): the initial dict
`{'open': None, ...}` is modelled as `current_bar = none`. -/
def initState : BotState where
  bars_5min := []
  current_bar := none
  bar_start_time := none
  in_position := false
  position_entry_price := none
  last_price := none
  price_was_above_ma := none
  current_tsi := none
  current_ma70 := none
  ma70_slope := none
  current_sar := none
  intents := []
  closed_log := []
  pnl_log := []

/-! ### Bot methods -/

/-- `_update_indicators` (source lines 197-231): no-op until `MA_PERIOD` bars
are retained, else recompute MA70, its slope, TSI and PSAR over the retained
history and store the latest value of each.  (`getLast?` is `some` here since
the history is non-empty; the fields hold NaN, not `none`, where the float
columns are NaN.) -/
def update_indicators (s : BotState) : BotState :=
  if s.bars_5min.length < MA_PERIOD then s
  else
    let closes := s.bars_5min.map Bar.close
    let ma := rollingMeanF MA_PERIOD closes
    let slope := diffF ma
    let tsi := calculate_tsiF closes TSI_FAST TSI_SLOW
    let psar := calculate_parabolic_sarF (s.bars_5min.map Bar.high)
      (s.bars_5min.map Bar.low) PSAR_AF PSAR_MAX_AF
    { s with current_ma70 := ma.getLast?
             ma70_slope := slope.getLast?
             current_tsi := tsi.getLast?
             current_sar := psar.getLast? }

/-- `_enter_short` (source lines 355-370): place the SELL order (logged as an
intent); on `Filled` set `in_position` and record the average fill price,
otherwise only log. -/
def enter_short (price : FVal) (fill : FillResult) (s : BotState) : BotState :=
  let s1 := { s with intents := s.intents ++ [Intent.entryShort price] }
  if fill.status = "Filled" then
    { s1 with in_position := true
              position_entry_price := some fill.avgFillPrice }
  else s1

/-- `_exit_short` (source lines 372-391): place the BUY order (logged as an
intent); on `Filled` log the realized P&L `entry - exit` and return to flat.
(`position_entry_price` is always set when this runs from a SHORT state; the
`getD nan` default stands in for the `TypeError` the source would raise on a
`None` entry price.) -/
def exit_short (fill : FillResult) (s : BotState) : BotState :=
  let s1 := { s with intents := s.intents ++ [Intent.exitShort] }
  if fill.status = "Filled" then
    { s1 with in_position := false
              position_entry_price := none
              pnl_log := s.pnl_log ++
                [fsub (s.position_entry_price.getD .nan) fill.avgFillPrice] }
  else s1

/-- `_check_entry_conditions` (source lines 305-338): skip while in position
or while MA70/TSI are unset; otherwise on the first observed tick just seed
the crossover tracker, and afterwards update the tracker and enter short when
the price crossed down through MA70 with a falling MA and TSI below the
threshold.  (`ma70_slope` is set whenever `current_ma70` is — they are
assigned together — so the `none` fallback of the slope test is unreachable.) -/
def check_entry_conditions (price : FVal) (efill : FillResult) (s : BotState) : BotState :=
  if s.in_position then s
  else
    match s.current_ma70, s.current_tsi with
    | some ma, some tsi =>
      let price_above_ma := fgt price ma
      match s.price_was_above_ma with
      | none => { s with price_was_above_ma := some price_above_ma }
      | some was_above =>
        let crossed_down := was_above && !price_above_ma
        let s1 := { s with price_was_above_ma := some price_above_ma }
        if crossed_down then
          let ma_descending :=
            match s1.ma70_slope with
            | some sl => flt sl (.fin 0)
            | none => false
          let tsi_below_threshold := flt tsi TSI_THRESHOLD
          if ma_descending && tsi_below_threshold then enter_short price efill s1
          else s1
        else s1
    | _, _ => s

/-- `_check_exit_conditions` (source lines 340-353): while in position with a
SAR available, exit when the last closed bar's high reaches the SAR.  (On an
empty history the source would raise `IndexError` reading `iloc[-1]`; a bar
has always been closed when a position exists.) -/
def check_exit_conditions (xfill : FillResult) (s : BotState) : BotState :=
  if s.in_position then
    match s.current_sar with
    | none => s
    | some sar =>
      match (s.bars_5min.map Bar.high).getLast? with
      | none => s
      | some last_high =>
        if fge last_high sar then exit_short xfill s else s
  else s

/-- `_close_bar` (source lines 274-303): append the in-progress bar to the
history, trim the history to `MA_PERIOD + TSI_SLOW + 100` rows, recompute the
indicators and run the exit check.  The closed bar is also recorded in the
ghost `closed_log`. -/
def close_bar (xfill : FillResult) (s : BotState) : BotState :=
  match s.current_bar with
  | none => s
  | some cb =>
    let bars1 := s.bars_5min ++ [cb]
    let max_bars := MA_PERIOD + TSI_SLOW + 100
    let bars2 := if max_bars < bars1.length then bars1.drop (bars1.length - max_bars)
      else bars1
    let s1 := { s with bars_5min := bars2, closed_log := s.closed_log ++ [cb] }
    check_exit_conditions xfill (update_indicators s1)

/-- `_get_bar_start_time` (source lines 233-236) with timestamps in whole
minutes: floor to a multiple of `TIMEFRAME_MINUTES` (equal to the source's
within-hour minute replacement because 5 divides 60). -/
def get_bar_start_time (now : ℕ) : ℕ := now - now % TIMEFRAME_MINUTES

/-- `_on_tick` (source lines 238-272): drop `None`/NaN prices; close the
previous bar and open a fresh one when the bucket changed, else fold the
price into the in-progress bar; record `last_price`; run the entry check.
`efill`/`xfill` are the Execution Gateway's replies consumed if an entry or
exit order is placed during this tick.  (In the matching-bucket branch
`current_bar` is always `some` — a set `bar_start_time` comes with an open
bar — and the `none` fallback stands in for the `TypeError` the source would
raise on the all-`None` dict.) -/
def on_tick (tickLast : Option FVal) (now : ℕ) (efill xfill : FillResult)
    (s : BotState) : BotState :=
  match tickLast with
  | none => s
  | some price =>
    if isnanB price then s
    else
      let bar_start := get_bar_start_time now
      let s1 :=
        if s.bar_start_time = some bar_start then
          match s.current_bar with
          | some cb =>
            { s with current_bar := some { cb with
                high := pymax cb.high price
                low := pymin cb.low price
                close := price } }
          | none => s
        else
          let sA := if s.bar_start_time ≠ none ∧ s.current_bar ≠ none
            then close_bar xfill s else s
          { sA with bar_start_time := some bar_start
                    current_bar := some ⟨price, price, price, price, 0⟩ }
      let s2 := { s1 with last_price := some price }
      check_entry_conditions price efill s2

/-- One live tick event: the ticker's `last` price, the wall-clock minute at
arrival, and the gateway replies consumed if this tick places orders. -/
structure TickEv where
  price : Option FVal
  now : ℕ
  efill : FillResult
  xfill : FillResult
deriving DecidableEq

/-- Feed a sequence of tick events through `_on_tick`. -/
def runTicks (evs : List TickEv) (s : BotState) : BotState :=
  evs.foldl (fun st e => on_tick e.price e.now e.efill e.xfill st) s

/-- A tick price that is present and finite. -/
def isFinPrice : Option FVal → Bool
  | some (.fin _) => true
  | _ => false

/-- A gateway reply that is not a fill. -/
def rejFill : FillResult := ⟨"Rejected", .nan⟩

/-- A gateway reply reporting a fill at price 98. -/
def filledFill : FillResult := ⟨"Filled", .fin 98⟩

/-! ### C4: the trend-reversal stop, as the spec describes it

`trendReversalStopSpec` is written from the specification's words (per-step
candidate, clamp against the prior one or two bars' extremes, regime flip /
extreme-point acceleration) and is compared with the source-derived
`calculate_parabolic_sar`. -/

/-- Per-bar state of the spec's trend-reversal stop. -/
structure StopState where
  stop : ℚ
  ep : ℚ
  af : ℚ
  up : Bool

/-- Spec clamp: in an uptrend cap the candidate at the minimum of the prior
one or two bars' lows; in a downtrend floor it at the maximum of the prior
one or two bars' highs. -/
def stopClamp (up : Bool) (high low : List ℚ) (i : ℕ) (cand : ℚ) : ℚ :=
  if up then
    min cand (if 2 ≤ i then min (low.getD (i-1) 0) (low.getD (i-2) 0) else low.getD (i-1) 0)
  else
    max cand (if 2 ≤ i then max (high.getD (i-1) 0) (high.getD (i-2) 0) else high.getD (i-1) 0)

/-- One spec step: move the stop towards the extreme point by the
acceleration factor, clamp it, then either flip regime (stop set to the
prior extreme point, extreme point reseeded from the flipping bar, factor
reset) or ratchet the extreme point (factor incremented, capped). -/
def stopStep (afS afM : ℚ) (high low : List ℚ) (i : ℕ) (st : StopState) :
    StopState × ℚ :=
  let cand := st.stop + st.af * (st.ep - st.stop)
  let clamped := stopClamp st.up high low i cand
  if st.up then
    if low.getD i 0 < clamped then
      (⟨st.ep, low.getD i 0, afS, false⟩, st.ep)
    else if st.ep < high.getD i 0 then
      (⟨clamped, high.getD i 0, min (st.af + afS) afM, true⟩, clamped)
    else
      (⟨clamped, st.ep, st.af, true⟩, clamped)
  else
    if clamped < high.getD i 0 then
      (⟨st.ep, high.getD i 0, afS, true⟩, st.ep)
    else if low.getD i 0 < st.ep then
      (⟨clamped, low.getD i 0, min (st.af + afS) afM, false⟩, clamped)
    else
      (⟨clamped, st.ep, st.af, false⟩, clamped)

/-- Iterate the spec step over the remaining bars (`fuel` iterations from
bar `i`). -/
def stopRun (afS afM : ℚ) (high low : List ℚ) : ℕ → ℕ → StopState → List ℚ
  | 0, _, _ => []
  | fuel + 1, i, st =>
    (stopStep afS afM high low i st).2 ::
      stopRun afS afM high low fuel (i+1) (stopStep afS afM high low i st).1

/-- The spec's trend-reversal stop: first value seeds from the first bar's
high, extreme point from its low, uptrend assumed. -/
def trendReversalStopSpec (high low : List ℚ) (afS afM : ℚ) : List ℚ :=
  match high, low with
  | h0 :: _, l0 :: _ => h0 :: stopRun afS afM high low (high.length - 1) 1 ⟨h0, l0, afS, true⟩
  | _, _ => []

theorem min_min_self (a b : ℚ) : min (min a b) b = min a b := by
  rw [min_assoc, min_self]

theorem max_max_self (a b : ℚ) : max (max a b) b = max a b := by
  rw [max_assoc, max_self]

theorem psarLoop_eq_stopRun (afS afM : ℚ) (high low : List ℚ) :
    ∀ fuel i prevSar af up ep,
      psarLoop afS afM high low fuel i prevSar af up ep =
        stopRun afS afM high low fuel i ⟨prevSar, ep, af, up⟩ := by
  intro fuel
  induction fuel with
  | zero => intro i prevSar af up ep; rfl
  | succ n ih =>
    intro i prevSar af up ep
    simp only [psarLoop, stopRun, stopStep, stopClamp]
    cases up with
    | true =>
      simp only [if_true]
      have hclamp : min (min (prevSar + af * (ep - prevSar)) (low.getD (i-1) 0))
          (if 2 ≤ i then low.getD (i-2) 0 else low.getD (i-1) 0) =
          min (prevSar + af * (ep - prevSar))
          (if 2 ≤ i then min (low.getD (i-1) 0) (low.getD (i-2) 0)
           else low.getD (i-1) 0) := by
        by_cases h2 : 2 ≤ i
        · rw [if_pos h2, if_pos h2, min_assoc]
        · rw [if_neg h2, if_neg h2, min_min_self]
      rw [hclamp]
      split_ifs <;> rw [ih]
    | false =>
      simp only [Bool.false_eq_true, if_false]
      have hclamp : max (max (prevSar + af * (ep - prevSar)) (high.getD (i-1) 0))
          (if 2 ≤ i then high.getD (i-2) 0 else high.getD (i-1) 0) =
          max (prevSar + af * (ep - prevSar))
          (if 2 ≤ i then max (high.getD (i-1) 0) (high.getD (i-2) 0)
           else high.getD (i-1) 0) := by
        by_cases h2 : 2 ≤ i
        · rw [if_pos h2, if_pos h2, max_assoc]
        · rw [if_neg h2, if_neg h2, max_max_self]
      rw [hclamp]
      split_ifs <;> rw [ih]

/-- C4: for every pair of high/low series, the source's Parabolic SAR
computation agrees bar by bar with the stop evolution described by the
specification: `stop[i] = stop[i-1] + af*(ep - stop[i-1])` clamped in an
uptrend to at most the minimum of the prior one or two bars' lows (floored
symmetrically in a downtrend); a bar's low undercutting the clamped stop in
an uptrend flips the regime with the stop set to the prior extreme point,
the extreme point reseeded from the flipping bar's low and the acceleration
factor reset to `afStart` (symmetrically on highs in a downtrend); otherwise
a new extreme increments the factor by `afStart`, capped at `afMax`. -/
theorem C4_sar_matches_spec (high low : List ℚ) (af_start af_max : ℚ) :
    calculate_parabolic_sar high low af_start af_max =
      trendReversalStopSpec high low af_start af_max := by
  unfold calculate_parabolic_sar trendReversalStopSpec
  match high, low with
  | [], [] => rfl
  | [], _ :: _ => rfl
  | _ :: _, [] => rfl
  | h0 :: hs, l0 :: ls => exact congrArg _ (psarLoop_eq_stopRun af_start af_max _ _ _ 1 h0 af_start true l0)

/-! ### C5: oscillator range on monotone inputs -/

theorem alphaOf_pos (n : ℕ) : 0 < alphaOf n := by
  unfold alphaOf; positivity

theorem alphaOf_le_one (n : ℕ) (h : 1 ≤ n) : alphaOf n ≤ 1 := by
  unfold alphaOf
  rw [div_le_one (by positivity)]
  have h1 : (1 : ℚ) ≤ n := by exact_mod_cast h
  linarith

theorem ewmaGo_pos (α : ℚ) (h0 : 0 < α) (h1 : α ≤ 1) :
    ∀ (l : List ℚ) (prev : ℚ), 0 < prev → (∀ x ∈ l, 0 < x) →
      ∀ y ∈ ewmaGo α prev l, 0 < y := by
  intro l
  induction l with
  | nil => intro prev _ _ y hy; simp [ewmaGo] at hy
  | cons x xs ih =>
    intro prev hprev hmem y hy
    have hx : 0 < x := hmem x (by simp)
    have hstep : 0 < prev + α * (x - prev) := by
      have hrw : prev + α * (x - prev) = (1 - α) * prev + α * x := by ring
      have hp1 : 0 ≤ (1 - α) * prev := mul_nonneg (by linarith) hprev.le
      have hp2 : 0 < α * x := mul_pos h0 hx
      rw [hrw]; linarith
    simp only [ewmaGo, List.mem_cons] at hy
    rcases hy with rfl | hy
    · exact hstep
    · exact ih (prev + α * (x - prev)) hstep (fun z hz => hmem z (by simp [hz])) y hy

theorem ewma_pos (α : ℚ) (h0 : 0 < α) (h1 : α ≤ 1) (l : List ℚ)
    (hmem : ∀ x ∈ l, 0 < x) : ∀ y ∈ ewma α l, 0 < y := by
  cases l with
  | nil => intro y hy; simp [ewma] at hy
  | cons x xs =>
    intro y hy
    have hx : 0 < x := hmem x (by simp)
    simp only [ewma, List.mem_cons] at hy
    rcases hy with rfl | hy
    · exact hx
    · exact ewmaGo_pos α h0 h1 xs x hx (fun z hz => hmem z (by simp [hz])) y hy

theorem ewmaGo_neg (α : ℚ) :
    ∀ (l : List ℚ) (prev : ℚ),
      ewmaGo α (-prev) (l.map (fun x => -x)) = (ewmaGo α prev l).map (fun x => -x) := by
  intro l
  induction l with
  | nil => intro prev; rfl
  | cons x xs ih =>
    intro prev
    simp only [List.map_cons, ewmaGo]
    have h : -prev + α * (-x - -prev) = -(prev + α * (x - prev)) := by ring
    rw [h, ih]

theorem ewma_neg (α : ℚ) (l : List ℚ) :
    ewma α (l.map (fun x => -x)) = (ewma α l).map (fun x => -x) := by
  cases l with
  | nil => rfl
  | cons x xs => simp only [List.map_cons, ewma]; rw [← ewmaGo_neg]

theorem diffs_pos (close : List ℚ) (h : List.Chain' (· < ·) close) :
    ∀ x ∈ diffs close, 0 < x := by
  induction close with
  | nil => intro x hx; simp [diffs] at hx
  | cons a l ih =>
    cases l with
    | nil => intro x hx; simp [diffs] at hx
    | cons b l2 =>
      rw [List.chain'_cons] at h
      intro x hx
      have hstep : diffs (a :: b :: l2) = (b - a) :: diffs (b :: l2) := rfl
      rw [hstep, List.mem_cons] at hx
      rcases hx with rfl | hx
      · linarith [h.1]
      · exact ih h.2 x hx

theorem diffs_nonpos (close : List ℚ) (h : List.Chain' (fun a b : ℚ => b ≤ a) close) :
    ∀ x ∈ diffs close, x ≤ 0 := by
  induction close with
  | nil => intro x hx; simp [diffs] at hx
  | cons a l ih =>
    cases l with
    | nil => intro x hx; simp [diffs] at hx
    | cons b l2 =>
      rw [List.chain'_cons] at h
      intro x hx
      have hstep : diffs (a :: b :: l2) = (b - a) :: diffs (b :: l2) := rfl
      rw [hstep, List.mem_cons] at hx
      rcases hx with rfl | hx
      · linarith [h.1]
      · exact ih h.2 x hx

theorem map_abs_of_pos (m : List ℚ) (h : ∀ x ∈ m, 0 < x) :
    m.map (fun x => |x|) = m := by
  induction m with
  | nil => rfl
  | cons a l ih =>
    simp only [List.map_cons]
    rw [abs_of_pos (h a (by simp)), ih (fun z hz => h z (by simp [hz]))]

theorem map_abs_of_nonpos (m : List ℚ) (h : ∀ x ∈ m, x ≤ 0) :
    m.map (fun x => |x|) = m.map (fun x => -x) := by
  induction m with
  | nil => rfl
  | cons a l ih =>
    simp only [List.map_cons]
    rw [abs_of_nonpos (h a (by simp)), ih (fun z hz => h z (by simp [hz]))]

/-- C5: over a strictly monotonically increasing close series every defined
oscillator value is at most 100, and over a monotonically decreasing close
series every defined value is at least -100 (the smoothing spans are at
least 1, as pandas `ewm(span=...)` requires). -/
theorem C5_tsi_bounds (close : List ℚ) (fast slow : ℕ) (hf : 1 ≤ fast) (hs : 1 ≤ slow) :
    (List.Chain' (· < ·) close →
      ∀ v ∈ calculate_tsi close fast slow, ∀ x : ℚ, v = some x → x ≤ 100) ∧
    (List.Chain' (fun a b : ℚ => b ≤ a) close →
      ∀ v ∈ calculate_tsi close fast slow, ∀ x : ℚ, v = some x → -100 ≤ x) := by
  constructor
  · intro hchain v hv x hvx
    cases close with
    | nil => simp [calculate_tsi] at hv
    | cons c0 rest =>
      simp only [calculate_tsi] at hv
      have hmpos : ∀ y ∈ diffs (c0 :: rest), 0 < y := diffs_pos _ hchain
      rw [map_abs_of_pos _ hmpos] at hv
      rw [List.zipWith_same] at hv
      rcases List.mem_cons.mp hv with rfl | hv2
      · exact absurd hvx (by simp)
      · rcases List.mem_map.mp hv2 with ⟨a, ha, hav⟩
        have hapos : 0 < a :=
          ewma_pos (alphaOf fast) (alphaOf_pos fast) (alphaOf_le_one fast hf) _
            (ewma_pos (alphaOf slow) (alphaOf_pos slow) (alphaOf_le_one slow hs) _
              hmpos) a ha
        rw [if_neg (ne_of_gt hapos)] at hav
        have hx100 : x = 100 := by
          have hxa : 100 * a / a = x := Option.some.inj (hav.trans hvx)
          rw [mul_div_assoc, div_self (ne_of_gt hapos), mul_one] at hxa
          exact hxa.symm
        rw [hx100]
  · intro hchain v hv x hvx
    cases close with
    | nil => simp [calculate_tsi] at hv
    | cons c0 rest =>
      simp only [calculate_tsi] at hv
      have hmneg : ∀ y ∈ diffs (c0 :: rest), y ≤ 0 := diffs_nonpos _ hchain
      rw [map_abs_of_nonpos _ hmneg, ewma_neg, ewma_neg, List.zipWith_map_right,
        List.zipWith_same] at hv
      rcases List.mem_cons.mp hv with rfl | hv2
      · exact absurd hvx (by simp)
      · rcases List.mem_map.mp hv2 with ⟨a, _, hav⟩
        by_cases haz : -a = 0
        · rw [if_pos haz] at hav
          exact absurd (hav.trans hvx) (by simp)
        · rw [if_neg haz] at hav
          have hx : 100 * a / -a = x := Option.some.inj (hav.trans hvx)
          have hane : a ≠ 0 := fun h => haz (by rw [h]; ring)
          rw [div_neg, mul_div_assoc, div_self hane, mul_one] at hx
          rw [← hx]

/-- Witness for C5 at the strictly increasing series `[1, 2, 3]`. -/
theorem C5_tsi_witness :
    calculate_tsi [1, 2, 3] 13 25 = [none, some 100, some 100] ∧ (100 : ℚ) ≤ 100 := by
  have heq : calculate_tsi [1, 2, 3] 13 25 = [none, some 100, some 100] := by
    norm_num [calculate_tsi, diffs, ewma, ewmaGo, alphaOf]
  refine ⟨heq,
    (C5_tsi_bounds [1, 2, 3] 13 25 (by norm_num) (by norm_num)).1 ?_ (some 100) ?_ 100 rfl⟩
  · norm_num [List.chain'_cons]
  · rw [heq]; simp

/-! ### Frame lemmas for the bot methods -/

theorem update_indicators_frame (s : BotState) :
    (update_indicators s).bars_5min = s.bars_5min ∧
    (update_indicators s).current_bar = s.current_bar ∧
    (update_indicators s).bar_start_time = s.bar_start_time ∧
    (update_indicators s).in_position = s.in_position ∧
    (update_indicators s).position_entry_price = s.position_entry_price ∧
    (update_indicators s).price_was_above_ma = s.price_was_above_ma ∧
    (update_indicators s).intents = s.intents ∧
    (update_indicators s).closed_log = s.closed_log ∧
    (update_indicators s).pnl_log = s.pnl_log := by
  unfold update_indicators
  split <;> simp

theorem enter_short_intents (price : FVal) (fill : FillResult) (s : BotState) :
    (enter_short price fill s).intents = s.intents ++ [Intent.entryShort price] := by
  unfold enter_short
  split <;> rfl

theorem enter_short_frame (price : FVal) (fill : FillResult) (s : BotState) :
    (enter_short price fill s).bars_5min = s.bars_5min ∧
    (enter_short price fill s).current_bar = s.current_bar ∧
    (enter_short price fill s).bar_start_time = s.bar_start_time ∧
    (enter_short price fill s).price_was_above_ma = s.price_was_above_ma ∧
    (enter_short price fill s).closed_log = s.closed_log ∧
    (enter_short price fill s).pnl_log = s.pnl_log := by
  unfold enter_short
  split <;> simp

theorem exit_short_intents (fill : FillResult) (s : BotState) :
    (exit_short fill s).intents = s.intents ++ [Intent.exitShort] := by
  unfold exit_short
  split <;> rfl

theorem exit_short_frame (fill : FillResult) (s : BotState) :
    (exit_short fill s).bars_5min = s.bars_5min ∧
    (exit_short fill s).current_bar = s.current_bar ∧
    (exit_short fill s).bar_start_time = s.bar_start_time ∧
    (exit_short fill s).price_was_above_ma = s.price_was_above_ma ∧
    (exit_short fill s).closed_log = s.closed_log := by
  unfold exit_short
  split <;> simp

theorem check_exit_frame (fill : FillResult) (s : BotState) :
    (check_exit_conditions fill s).bars_5min = s.bars_5min ∧
    (check_exit_conditions fill s).current_bar = s.current_bar ∧
    (check_exit_conditions fill s).bar_start_time = s.bar_start_time ∧
    (check_exit_conditions fill s).price_was_above_ma = s.price_was_above_ma ∧
    (check_exit_conditions fill s).closed_log = s.closed_log := by
  unfold check_exit_conditions
  split
  · split
    · simp
    · split
      · simp
      · split
        · exact exit_short_frame fill s
        · simp
  · simp

theorem enter_short_def (price : FVal) (fill : FillResult) (s : BotState) :
    enter_short price fill s =
      if fill.status = "Filled" then
        { s with intents := s.intents ++ [Intent.entryShort price]
                 in_position := true
                 position_entry_price := some fill.avgFillPrice }
      else { s with intents := s.intents ++ [Intent.entryShort price] } := rfl

theorem exit_short_def (fill : FillResult) (s : BotState) :
    exit_short fill s =
      if fill.status = "Filled" then
        { s with intents := s.intents ++ [Intent.exitShort]
                 in_position := false
                 position_entry_price := none
                 pnl_log := s.pnl_log ++
                   [fsub (s.position_entry_price.getD .nan) fill.avgFillPrice] }
      else { s with intents := s.intents ++ [Intent.exitShort] } := rfl

theorem check_entry_frame (price : FVal) (efill : FillResult) (s : BotState) :
    (check_entry_conditions price efill s).bars_5min = s.bars_5min ∧
    (check_entry_conditions price efill s).current_bar = s.current_bar ∧
    (check_entry_conditions price efill s).bar_start_time = s.bar_start_time ∧
    (check_entry_conditions price efill s).closed_log = s.closed_log ∧
    (check_entry_conditions price efill s).pnl_log = s.pnl_log := by
  unfold check_entry_conditions
  split
  · simp
  · split
    · dsimp only
      split
      · simp
      · split
        · split
          · rw [enter_short_def]
            split <;> simp
          · simp
        · simp
    · simp

/-! ### C1: tick-level entry logic -/

/-- C1: for a tick evaluated while flat with MA70 and TSI available (the
slope is always set alongside MA70 — they are assigned together): on the
first observed tick the handler only seeds the crossover tracker and changes
nothing else (in particular no intent), and afterwards an ENTRY_SHORT intent
at the tick's price is emitted iff the previous tick's price was strictly
above MA70 (`b = true`), the current price is not strictly above it (a tie
counts as not-above), the MA slope is negative, and the TSI is below the
threshold. -/
theorem C1_entry_conditions (price : FVal) (efill : FillResult) (s : BotState)
    (ma tsi slope : FVal)
    (hp : s.in_position = false)
    (hma : s.current_ma70 = some ma)
    (htsi : s.current_tsi = some tsi)
    (hsl : s.ma70_slope = some slope) :
    (s.price_was_above_ma = none →
      check_entry_conditions price efill s =
        { s with price_was_above_ma := some (fgt price ma) }) ∧
    (∀ b : Bool, s.price_was_above_ma = some b →
      ((check_entry_conditions price efill s).intents =
          s.intents ++ [Intent.entryShort price] ↔
        b = true ∧ fgt price ma = false ∧ flt slope (.fin 0) = true ∧
          flt tsi TSI_THRESHOLD = true)) := by
  constructor
  · intro htr
    unfold check_entry_conditions
    rw [hp, hma, htsi, htr]
    simp
  · intro b htr
    unfold check_entry_conditions
    rw [hp, hma, htsi, htr]
    dsimp only
    rw [hsl]
    cases b <;> cases hpa : fgt price ma <;>
      cases hsl0 : flt slope (.fin 0) <;> cases hts0 : flt tsi TSI_THRESHOLD <;>
      simp [enter_short_def, hpa, hsl0, hts0] <;> split <;> simp

/-- A flat state with indicators loaded (MA70 = 100, TSI = -12, slope = -1)
whose previous tick was above the MA. -/
def st1 : BotState :=
  { initState with
      current_ma70 := some (.fin 100)
      current_tsi := some (.fin (-12))
      ma70_slope := some (.fin (-1))
      price_was_above_ma := some true }

/-- Witness for C1: a tick at 99 against MA 100 (slope -1, TSI -12) emits
the short-entry intent at 99. -/
theorem C1_entry_witness :
    (check_entry_conditions (.fin 99) filledFill st1).intents =
      st1.intents ++ [Intent.entryShort (.fin 99)] :=
  ((C1_entry_conditions (.fin 99) filledFill st1 (.fin 100) (.fin (-12)) (.fin (-1))
    rfl rfl rfl rfl).2 true rfl).mpr (by decide)

/-! ### C2: bar-close exit logic -/

/-- C2: for a bar-close evaluation while short with a stop value available,
an EXIT_SHORT intent is emitted iff the closed bar's high (the last bar of
the history, i.e. the bar just appended by `_close_bar`) is at least the
stop; and when the gateway reports the exit as filled, the position returns
to flat with realized P&L `entry_price - exit fill price`. -/
theorem C2_exit_conditions (xfill : FillResult) (s : BotState)
    (sar lastHigh entry : FVal)
    (hpos : s.in_position = true)
    (hsar : s.current_sar = some sar)
    (hlast : (s.bars_5min.map Bar.high).getLast? = some lastHigh)
    (hentry : s.position_entry_price = some entry) :
    ((check_exit_conditions xfill s).intents = s.intents ++ [Intent.exitShort] ↔
      fge lastHigh sar = true) ∧
    (fge lastHigh sar = true → xfill.status = "Filled" →
      (check_exit_conditions xfill s).in_position = false ∧
      (check_exit_conditions xfill s).position_entry_price = none ∧
      (check_exit_conditions xfill s).pnl_log =
        s.pnl_log ++ [fsub entry xfill.avgFillPrice]) := by
  unfold check_exit_conditions
  rw [hpos, hsar, hlast]
  constructor
  · cases hge : fge lastHigh sar <;> simp [exit_short_def, hge] <;> split <;> simp
  · intro hge hfill
    simp [exit_short_def, hge, hfill, hentry]

/-- A short state (entry 110) with SAR 105 whose last closed bar has
high 106. -/
def st2 : BotState :=
  { initState with
      in_position := true
      position_entry_price := some (.fin 110)
      current_sar := some (.fin 105)
      bars_5min := [⟨.fin 100, .fin 106, .fin 99, .fin 104, 0⟩] }

/-- Witness for C2: with stop 105 and closed-bar high 106, a filled exit at
98 returns the bot to flat and logs P&L `110 - 98`. -/
theorem C2_exit_witness :
    (check_exit_conditions filledFill st2).in_position = false ∧
    (check_exit_conditions filledFill st2).position_entry_price = none ∧
    (check_exit_conditions filledFill st2).pnl_log =
      st2.pnl_log ++ [fsub (.fin 110) filledFill.avgFillPrice] :=
  (C2_exit_conditions filledFill st2 (.fin 105) (.fin 106) (.fin 110)
    rfl rfl (by decide) rfl).2 (by decide) rfl

/-! ### C3: non-filled orders cause no position transition -/

/-- C3: if the gateway reply for an entry or exit intent is anything other
than `Filled`, the handler's entire effect is the intent log entry: every
other field — in particular `in_position` and `position_entry_price` — is
exactly as before, so the next qualifying event is evaluated from the
pre-intent state. -/
theorem C3_no_fill_no_transition (price : FVal) (fill : FillResult) (s : BotState)
    (h : fill.status ≠ "Filled") :
    enter_short price fill s =
      { s with intents := s.intents ++ [Intent.entryShort price] } ∧
    exit_short fill s = { s with intents := s.intents ++ [Intent.exitShort] } := by
  rw [enter_short_def, exit_short_def, if_neg h, if_neg h]
  exact ⟨rfl, rfl⟩

/-- Witness for C3 with a rejected order from the initial state. -/
theorem C3_no_fill_witness :
    enter_short (.fin 99) rejFill initState =
      { initState with intents := [Intent.entryShort (.fin 99)] } ∧
    exit_short rejFill initState =
      { initState with intents := [Intent.exitShort] } :=
  C3_no_fill_no_transition (.fin 99) rejFill initState (by decide)

/-! ### C7 (corrected): only missing/NaN prices are dropped -/

/-- C7 counterexample: a tick carrying an *infinite* price is not dropped —
the guard at source line 240 only tests `is None` and `np.isnan` — so
processing it from the initial state opens a bar at `+inf` and changes the
state. -/
theorem C7_counterexample :
    on_tick (some FVal.pinf) 0 rejFill rejFill initState ≠ initState := by decide

/-- C7 (amended): a tick whose price is missing (`None`) or NaN is dropped
with no state change at all. -/
theorem C7_amended (t : Option FVal) (now : ℕ) (ef xf : FillResult) (s : BotState)
    (h : t = none ∨ t = some FVal.nan) :
    on_tick t now ef xf s = s := by
  rcases h with rfl | rfl <;> rfl

/-- Witness for C7 (amended): a NaN-priced tick leaves the state `st1`
untouched. -/
theorem C7_amended_witness :
    on_tick (some FVal.nan) 0 rejFill rejFill st1 = st1 :=
  C7_amended (some FVal.nan) 0 rejFill rejFill st1 (Or.inr rfl)

/-! ### C8 (corrected): when the crossover tracker updates -/

/-- A state that is in a short position with indicators loaded and a tracker
remembering "below the MA". -/
def st8 : BotState :=
  { initState with
      in_position := true
      position_entry_price := some (.fin 150)
      current_ma70 := some (.fin 100)
      current_tsi := some (.fin (-20))
      ma70_slope := some (.fin (-1))
      price_was_above_ma := some false }

/-- C8 counterexample: while in position, a processed tick does *not* update
the crossover tracker (`_check_entry_conditions` returns before the update),
so after a tick at 200 against MA 100 the tracker still does not reflect the
tick's above-the-reference relation. -/
theorem C8_counterexample :
    ¬ ((on_tick (some (.fin 200)) 0 rejFill rejFill st8).price_was_above_ma =
        some (fgt (.fin 200) (.fin 100))) := by decide

/-- C8 (amended): the tracker is updated to the tick's above-MA relation on
every tick evaluated while flat with MA70 and TSI available — regardless of
the signal outcome — and is left unchanged (never reset to unset) by ticks
processed while in position or while MA70/TSI are unavailable. -/
theorem C8_amended (price : FVal) (ef : FillResult) (s : BotState) :
    (∀ ma tsi : FVal, s.in_position = false → s.current_ma70 = some ma →
      s.current_tsi = some tsi →
      (check_entry_conditions price ef s).price_was_above_ma = some (fgt price ma)) ∧
    (s.in_position = true →
      (check_entry_conditions price ef s).price_was_above_ma = s.price_was_above_ma) ∧
    (s.current_ma70 = none ∨ s.current_tsi = none →
      (check_entry_conditions price ef s).price_was_above_ma = s.price_was_above_ma) := by
  refine ⟨?_, ?_, ?_⟩
  · intro ma tsi hp hma htsi
    unfold check_entry_conditions
    rw [hp, hma, htsi]
    simp only [Bool.false_eq_true, if_false]
    cases htr : s.price_was_above_ma with
    | none => simp
    | some b =>
      dsimp only
      split
      · split
        · rw [(enter_short_frame _ _ _).2.2.2.1]
        · rfl
      · rfl
  · intro hp
    unfold check_entry_conditions
    rw [hp]
    simp
  · intro hor
    unfold check_entry_conditions
    split
    · rfl
    · rcases hor with h | h
      · rw [h]
      · rw [h]
        cases s.current_ma70 <;> rfl

/-- Witness for C8 (amended) at the flat state `st1`. -/
theorem C8_amended_witness :
    (check_entry_conditions (.fin 99) rejFill st1).price_was_above_ma =
      some (fgt (.fin 99) (.fin 100)) :=
  (C8_amended (.fin 99) rejFill st1).1 (.fin 100) (.fin (-12)) rfl rfl rfl

/-! ### C6: OHLC invariant of aggregated bars -/

theorem pymax_fin (a b : ℚ) : pymax (.fin a) (.fin b) = .fin (max a b) := by
  simp only [pymax, fgt, flt, decide_eq_true_eq]
  by_cases h : a < b
  · rw [if_pos h, max_eq_right h.le]
  · rw [if_neg h, max_eq_left (not_lt.mp h)]

theorem pymin_fin (a b : ℚ) : pymin (.fin a) (.fin b) = .fin (min a b) := by
  simp only [pymin, flt, decide_eq_true_eq]
  by_cases h : b < a
  · rw [if_pos h, min_eq_right h.le]
  · rw [if_neg h, min_eq_left (not_lt.mp h)]

/-- A bar whose fields are finite prices satisfying the OHLC invariant
`low ≤ min(open, close)` and `max(open, close) ≤ high`. -/
def BarFin (b : Bar) : Prop :=
  ∃ o h l c : ℚ, b.open_ = .fin o ∧ b.high = .fin h ∧ b.low = .fin l ∧
    b.close = .fin c ∧ l ≤ min o c ∧ max o c ≤ h

/-- All bars the aggregator has closed, and the in-progress bar if any, are
well-formed. -/
def BarsWF (s : BotState) : Prop :=
  (∀ b ∈ s.closed_log, BarFin b) ∧ (∀ cb, s.current_bar = some cb → BarFin cb)

theorem BarFin_new (q : ℚ) : BarFin ⟨.fin q, .fin q, .fin q, .fin q, 0⟩ :=
  ⟨q, q, q, q, rfl, rfl, rfl, rfl, by simp, by simp⟩

theorem BarFin_update (cb : Bar) (q : ℚ) (hfin : BarFin cb) :
    BarFin { cb with high := pymax cb.high (.fin q)
                     low := pymin cb.low (.fin q)
                     close := .fin q } := by
  obtain ⟨o, hh, l, c, ho, hhi, hlo, hcl, h1, h2⟩ := hfin
  have hlo2 : l ≤ o := le_trans h1 (min_le_left o c)
  have hoh : o ≤ hh := le_trans (le_max_left o c) h2
  refine ⟨o, max hh q, min l q, q, ho, ?_, ?_, rfl, ?_, ?_⟩
  · show pymax cb.high (.fin q) = _
    rw [hhi, pymax_fin]
  · show pymin cb.low (.fin q) = _
    rw [hlo, pymin_fin]
  · exact le_min (le_trans (min_le_left l q) hlo2) (min_le_right l q)
  · exact max_le (le_trans hoh (le_max_left hh q)) (le_max_right hh q)

theorem check_entry_barsWF (p : FVal) (ef : FillResult) (s : BotState)
    (hs : BarsWF s) : BarsWF (check_entry_conditions p ef s) := by
  obtain ⟨h1, h2⟩ := hs
  obtain ⟨_, hcb, _, hcl, _⟩ := check_entry_frame p ef s
  exact ⟨by rw [hcl]; exact h1, by rw [hcb]; exact h2⟩

theorem close_bar_log_cur (xf : FillResult) (s : BotState) :
    ((close_bar xf s).current_bar = s.current_bar) ∧
    ((close_bar xf s).closed_log = s.closed_log ∨
      ∃ cb, s.current_bar = some cb ∧
        (close_bar xf s).closed_log = s.closed_log ++ [cb]) := by
  unfold close_bar
  cases hcb : s.current_bar with
  | none => exact ⟨hcb, Or.inl rfl⟩
  | some cb =>
    dsimp only
    constructor
    · rw [(check_exit_frame _ _).2.1, (update_indicators_frame _).2.1]
    · right
      refine ⟨cb, rfl, ?_⟩
      rw [(check_exit_frame _ _).2.2.2.2, (update_indicators_frame _).2.2.2.2.2.2.2.1]

theorem on_tick_barsWF (q : ℚ) (now : ℕ) (ef xf : FillResult) (s : BotState)
    (hs : BarsWF s) : BarsWF (on_tick (some (.fin q)) now ef xf s) := by
  obtain ⟨hlog, hcur⟩ := hs
  unfold on_tick
  simp only [isnanB, Bool.false_eq_true, if_false]
  apply check_entry_barsWF
  split
  · cases hcb : s.current_bar with
    | none => exact ⟨hlog, hcur⟩
    | some cb =>
      dsimp only
      refine ⟨hlog, ?_⟩
      intro cb2 hcb2
      rw [Option.some.injEq] at hcb2
      rw [← hcb2]
      exact BarFin_update cb q (hcur cb hcb)
  · split
    · obtain ⟨hcb_cur, hcb_log⟩ := close_bar_log_cur xf s
      constructor
      · intro b hb
        dsimp only at hb
        rcases hcb_log with heq | ⟨cb, hcb, heq⟩
        · rw [heq] at hb
          exact hlog b hb
        · rw [heq, List.mem_append, List.mem_singleton] at hb
          rcases hb with hb | rfl
          · exact hlog b hb
          · exact hcur b hcb
      · intro cb2 hcb2
        dsimp only at hcb2
        rw [Option.some.injEq] at hcb2
        rw [← hcb2]
        exact BarFin_new q
    · constructor
      · intro b hb
        exact hlog b hb
      · intro cb2 hcb2
        dsimp only at hcb2
        rw [Option.some.injEq] at hcb2
        rw [← hcb2]
        exact BarFin_new q

theorem runTicks_barsWF (evs : List TickEv) (s : BotState)
    (hfin : ∀ e ∈ evs, isFinPrice e.price = true) (hs : BarsWF s) :
    BarsWF (runTicks evs s) := by
  induction evs generalizing s with
  | nil => exact hs
  | cons e rest ih =>
    have he := hfin e (by simp)
    obtain ⟨v, hv⟩ : ∃ v : ℚ, e.price = some (.fin v) := by
      cases hp : e.price with
      | none => rw [hp] at he; simp [isFinPrice] at he
      | some w =>
        cases w with
        | fin v => exact ⟨v, rfl⟩
        | pinf => rw [hp] at he; simp [isFinPrice] at he
        | ninf => rw [hp] at he; simp [isFinPrice] at he
        | nan => rw [hp] at he; simp [isFinPrice] at he
    have hstep : BarsWF (on_tick e.price e.now e.efill e.xfill s) := by
      rw [hv]
      exact on_tick_barsWF v e.now e.efill e.xfill s hs
    have hrun : runTicks (e :: rest) s =
        runTicks rest (on_tick e.price e.now e.efill e.xfill s) := rfl
    rw [hrun]
    exact ih _ (fun x hx => hfin x (by simp [hx])) hstep

theorem on_tick_opens (q : ℚ) (now : ℕ) (ef xf : FillResult) (s : BotState)
    (h : ¬ s.bar_start_time = some (get_bar_start_time now)) :
    (on_tick (some (.fin q)) now ef xf s).current_bar =
      some ⟨.fin q, .fin q, .fin q, .fin q, 0⟩ := by
  unfold on_tick
  simp only [isnanB, Bool.false_eq_true, if_false]
  rw [if_neg h, (check_entry_frame _ _ _).2.1]

theorem on_tick_updates (q o hh l c : ℚ) (v : ℕ) (now : ℕ) (ef xf : FillResult)
    (s : BotState)
    (ht : s.bar_start_time = some (get_bar_start_time now))
    (hcb : s.current_bar = some ⟨.fin o, .fin hh, .fin l, .fin c, v⟩) :
    (on_tick (some (.fin q)) now ef xf s).current_bar =
      some ⟨.fin o, .fin (max hh q), .fin (min l q), .fin q, v⟩ := by
  unfold on_tick
  simp only [isnanB, Bool.false_eq_true, if_false]
  rw [if_pos ht, hcb]
  dsimp only
  rw [(check_entry_frame _ _ _).2.1]
  dsimp only
  rw [pymax_fin, pymin_fin]

/-- C6: over any run of finite-priced tick events from the initial state,
every bar the aggregator closes satisfies `low ≤ min(open, close)` and
`max(open, close) ≤ high`; moreover a tick whose bucket differs from the
in-progress bar's opens a fresh bar with `open = high = low = close = price`
and `volume = 0`, and an in-boundary tick sets `high := max(high, price)`,
`low := min(low, price)`, `close := price`. -/
theorem C6_bar_invariant (evs : List TickEv)
    (hfin : ∀ e ∈ evs, isFinPrice e.price = true) :
    (∀ b ∈ (runTicks evs initState).closed_log, BarFin b) ∧
    (∀ (q : ℚ) (now : ℕ) (ef xf : FillResult) (s : BotState),
      ¬ s.bar_start_time = some (get_bar_start_time now) →
      (on_tick (some (.fin q)) now ef xf s).current_bar =
        some ⟨.fin q, .fin q, .fin q, .fin q, 0⟩) ∧
    (∀ (q o hh l c : ℚ) (v : ℕ) (now : ℕ) (ef xf : FillResult) (s : BotState),
      s.bar_start_time = some (get_bar_start_time now) →
      s.current_bar = some ⟨.fin o, .fin hh, .fin l, .fin c, v⟩ →
      (on_tick (some (.fin q)) now ef xf s).current_bar =
        some ⟨.fin o, .fin (max hh q), .fin (min l q), .fin q, v⟩) := by
  refine ⟨?_, on_tick_opens, on_tick_updates⟩
  have h0 : BarsWF initState := by
    constructor
    · intro b hb
      simp [initState] at hb
    · intro cb h
      simp [initState] at h
  exact (runTicks_barsWF evs initState hfin h0).1

/-- Three finite ticks: two into the bucket starting at minute 0, one at
minute 5 that closes the first bar. -/
def evs3 : List TickEv :=
  [⟨some (.fin 10), 0, rejFill, rejFill⟩,
   ⟨some (.fin 12), 1, rejFill, rejFill⟩,
   ⟨some (.fin 11), 5, rejFill, rejFill⟩]

/-- Witness for C6: the bar closed by the run of `evs3` is well-formed. -/
theorem C6_bar_witness : BarFin ⟨.fin 10, .fin 12, .fin 10, .fin 12, 0⟩ :=
  (C6_bar_invariant evs3 (by decide)).1 ⟨.fin 10, .fin 12, .fin 10, .fin 12, 0⟩
    (by decide)

/-! ### C9 (corrected): volume is never updated -/

/-- A state with an in-progress bar (all fields 10, volume 0) in the bucket
starting at minute 0. -/
def st9 : BotState :=
  { initState with
      bar_start_time := some 0
      current_bar := some ⟨.fin 10, .fin 10, .fin 10, .fin 10, 0⟩ }

/-- C9 counterexample: an in-boundary tick at 12 mutates the in-progress bar
(high/close change) but leaves its volume field exactly as before, and the
bar closed after two aggregated ticks still carries volume 0 — the tick loop
never touches `current_bar[\x27volume\x27]`. -/
theorem C9_counterexample :
    (on_tick (some (.fin 12)) 3 rejFill rejFill st9).current_bar.map Bar.volume =
      st9.current_bar.map Bar.volume ∧
    (on_tick (some (.fin 12)) 3 rejFill rejFill st9).current_bar ≠
      st9.current_bar ∧
    (runTicks evs3 initState).closed_log.map Bar.volume = [0] :=
  ⟨by decide, by decide, by decide⟩

/-- Closed bars, and the in-progress bar if any, carry volume 0. -/
def VolZero (s : BotState) : Prop :=
  (∀ b ∈ s.closed_log, b.volume = 0) ∧ (∀ cb, s.current_bar = some cb → cb.volume = 0)

theorem check_entry_volZero (p : FVal) (ef : FillResult) (s : BotState)
    (hs : VolZero s) : VolZero (check_entry_conditions p ef s) := by
  obtain ⟨h1, h2⟩ := hs
  obtain ⟨_, hcb, _, hcl, _⟩ := check_entry_frame p ef s
  exact ⟨by rw [hcl]; exact h1, by rw [hcb]; exact h2⟩

theorem on_tick_volZero (t : Option FVal) (now : ℕ) (ef xf : FillResult)
    (s : BotState) (hs : VolZero s) : VolZero (on_tick t now ef xf s) := by
  obtain ⟨hlog, hcur⟩ := hs
  cases t with
  | none => exact ⟨hlog, hcur⟩
  | some p =>
    unfold on_tick
    dsimp only
    by_cases hnan : isnanB p = true
    · rw [if_pos hnan]
      exact ⟨hlog, hcur⟩
    · rw [if_neg hnan]
      apply check_entry_volZero
      split
      · cases hcb : s.current_bar with
        | none => exact ⟨hlog, hcur⟩
        | some cb =>
          dsimp only
          refine ⟨hlog, ?_⟩
          intro cb2 hcb2
          rw [Option.some.injEq] at hcb2
          rw [← hcb2]
          exact hcur cb hcb
      · split
        · obtain ⟨hcb_cur, hcb_log⟩ := close_bar_log_cur xf s
          constructor
          · intro b hb
            dsimp only at hb
            rcases hcb_log with heq | ⟨cb, hcb, heq⟩
            · rw [heq] at hb
              exact hlog b hb
            · rw [heq, List.mem_append, List.mem_singleton] at hb
              rcases hb with hb | rfl
              · exact hlog b hb
              · exact hcur b hcb
          · intro cb2 hcb2
            dsimp only at hcb2
            rw [Option.some.injEq] at hcb2
            rw [← hcb2]
        · constructor
          · intro b hb
            exact hlog b hb
          · intro cb2 hcb2
            dsimp only at hcb2
            rw [Option.some.injEq] at hcb2
            rw [← hcb2]

theorem runTicks_volZero (evs : List TickEv) (s : BotState) (hs : VolZero s) :
    VolZero (runTicks evs s) := by
  induction evs generalizing s with
  | nil => exact hs
  | cons e rest ih =>
    exact ih _ (on_tick_volZero e.price e.now e.efill e.xfill s hs)

/-- C9 (amended): an in-boundary tick updates only high (to `max(high,
price)`), low (to `min(low, price)`) and close (to the price), leaving
volume untouched; since every bar opens with volume 0, every bar the
aggregator closes has volume 0. -/
theorem C9_amended :
    (∀ (q o hh l c : ℚ) (v : ℕ) (now : ℕ) (ef xf : FillResult) (s : BotState),
      s.bar_start_time = some (get_bar_start_time now) →
      s.current_bar = some ⟨.fin o, .fin hh, .fin l, .fin c, v⟩ →
      (on_tick (some (.fin q)) now ef xf s).current_bar =
        some ⟨.fin o, .fin (max hh q), .fin (min l q), .fin q, v⟩) ∧
    (∀ evs : List TickEv, ∀ b ∈ (runTicks evs initState).closed_log, b.volume = 0) := by
  refine ⟨on_tick_updates, ?_⟩
  intro evs
  have h0 : VolZero initState := by
    constructor
    · intro b hb
      simp [initState] at hb
    · intro cb h
      simp [initState] at h
  exact (runTicks_volZero evs initState h0).1

/-- Witness for C9 (amended) at the state `st9`. -/
theorem C9_amended_witness :
    (on_tick (some (.fin 12)) 3 rejFill rejFill st9).current_bar =
      some ⟨.fin 10, .fin (max 10 12), .fin (min 10 12), .fin 12, 0⟩ :=
  C9_amended.1 12 10 10 10 10 0 3 rejFill rejFill st9 rfl rfl

/-! ### C10: position/entry-price coupling -/

/-- How `in_position`/`position_entry_price` may evolve across one handler
invocation with gateway replies `ef` (entry) and `xf` (exit): unchanged, an
entry established by a filled `ef`, an exit through a filled `xf`, or an exit
followed by a re-entry within the same tick. -/
def PosEvolution (s s2 : BotState) (ef xf : FillResult) : Prop :=
  (s2.in_position = s.in_position ∧
    s2.position_entry_price = s.position_entry_price) ∨
  (s.in_position = false ∧ s2.in_position = true ∧ ef.status = "Filled" ∧
    s2.position_entry_price = some ef.avgFillPrice) ∨
  (s.in_position = true ∧ s2.in_position = false ∧ xf.status = "Filled" ∧
    s2.position_entry_price = none) ∨
  (s.in_position = true ∧ s2.in_position = true ∧ xf.status = "Filled" ∧
    ef.status = "Filled" ∧ s2.position_entry_price = some ef.avgFillPrice)

theorem enter_short_pos (price : FVal) (ef : FillResult) (s : BotState) :
    ((enter_short price ef s).in_position = s.in_position ∧
      (enter_short price ef s).position_entry_price = s.position_entry_price) ∨
    (ef.status = "Filled" ∧ (enter_short price ef s).in_position = true ∧
      (enter_short price ef s).position_entry_price = some ef.avgFillPrice) := by
  rw [enter_short_def]
  split
  · right; exact ⟨by assumption, rfl, rfl⟩
  · left; exact ⟨rfl, rfl⟩

theorem exit_short_pos (xf : FillResult) (s : BotState) :
    ((exit_short xf s).in_position = s.in_position ∧
      (exit_short xf s).position_entry_price = s.position_entry_price) ∨
    (xf.status = "Filled" ∧ (exit_short xf s).in_position = false ∧
      (exit_short xf s).position_entry_price = none) := by
  rw [exit_short_def]
  split
  · right; exact ⟨by assumption, rfl, rfl⟩
  · left; exact ⟨rfl, rfl⟩

theorem check_exit_pos (xf : FillResult) (s : BotState) :
    ((check_exit_conditions xf s).in_position = s.in_position ∧
      (check_exit_conditions xf s).position_entry_price = s.position_entry_price) ∨
    (s.in_position = true ∧ xf.status = "Filled" ∧
      (check_exit_conditions xf s).in_position = false ∧
      (check_exit_conditions xf s).position_entry_price = none) := by
  unfold check_exit_conditions
  split
  · split
    · left; exact ⟨rfl, rfl⟩
    · split
      · left; exact ⟨rfl, rfl⟩
      · split
        · rcases exit_short_pos xf s with ⟨h1, h2⟩ | ⟨h1, h2, h3⟩
          · left; exact ⟨h1, h2⟩
          · right; exact ⟨by assumption, h1, h2, h3⟩
        · left; exact ⟨rfl, rfl⟩
  · left; exact ⟨rfl, rfl⟩

theorem check_entry_pos (p : FVal) (ef : FillResult) (s : BotState) :
    ((check_entry_conditions p ef s).in_position = s.in_position ∧
      (check_entry_conditions p ef s).position_entry_price =
        s.position_entry_price) ∨
    (s.in_position = false ∧ ef.status = "Filled" ∧
      (check_entry_conditions p ef s).in_position = true ∧
      (check_entry_conditions p ef s).position_entry_price =
        some ef.avgFillPrice) := by
  unfold check_entry_conditions
  split
  · left; exact ⟨rfl, rfl⟩
  · rename_i hpos
    have hfalse : s.in_position = false := by
      cases hb : s.in_position
      · rfl
      · exact absurd hb hpos
    split
    · dsimp only
      split
      · left; exact ⟨rfl, rfl⟩
      · split
        · split
          · rcases enter_short_pos p ef _ with ⟨h1, h2⟩ | ⟨h1, h2, h3⟩
            · left; exact ⟨h1, h2⟩
            · right; exact ⟨hfalse, h1, h2, h3⟩
          · left; exact ⟨rfl, rfl⟩
        · left; exact ⟨rfl, rfl⟩
    · left; exact ⟨rfl, rfl⟩

theorem close_steps_pos (xf : FillResult) (t : BotState) :
    ((check_exit_conditions xf (update_indicators t)).in_position =
        t.in_position ∧
      (check_exit_conditions xf (update_indicators t)).position_entry_price =
        t.position_entry_price) ∨
    (t.in_position = true ∧ xf.status = "Filled" ∧
      (check_exit_conditions xf (update_indicators t)).in_position = false ∧
      (check_exit_conditions xf (update_indicators t)).position_entry_price =
        none) := by
  rcases check_exit_pos xf (update_indicators t) with ⟨h1, h2⟩ | ⟨h1, h2, h3, h4⟩
  · left
    exact ⟨h1.trans (update_indicators_frame t).2.2.2.1,
      h2.trans (update_indicators_frame t).2.2.2.2.1⟩
  · right
    exact ⟨((update_indicators_frame t).2.2.2.1).symm.trans h1, h2, h3, h4⟩

theorem close_bar_pos (xf : FillResult) (s : BotState) :
    ((close_bar xf s).in_position = s.in_position ∧
      (close_bar xf s).position_entry_price = s.position_entry_price) ∨
    (s.in_position = true ∧ xf.status = "Filled" ∧
      (close_bar xf s).in_position = false ∧
      (close_bar xf s).position_entry_price = none) := by
  unfold close_bar
  cases hcb : s.current_bar with
  | none => left; exact ⟨rfl, rfl⟩
  | some cb =>
    dsimp only
    exact close_steps_pos xf _

theorem posEvolution_comp (s sMid s2 : BotState) (ef xf : FillResult)
    (h1 : (sMid.in_position = s.in_position ∧
        sMid.position_entry_price = s.position_entry_price) ∨
      (s.in_position = true ∧ xf.status = "Filled" ∧
        sMid.in_position = false ∧ sMid.position_entry_price = none))
    (h2 : (s2.in_position = sMid.in_position ∧
        s2.position_entry_price = sMid.position_entry_price) ∨
      (sMid.in_position = false ∧ ef.status = "Filled" ∧
        s2.in_position = true ∧ s2.position_entry_price = some ef.avgFillPrice)) :
    PosEvolution s s2 ef xf := by
  rcases h1 with ⟨ha, hb⟩ | ⟨ha, hb, hc, hd⟩
  · rcases h2 with ⟨he, hf⟩ | ⟨he, hf, hg, hh⟩
    · left; exact ⟨he.trans ha, hf.trans hb⟩
    · right; left; exact ⟨ha ▸ he, hg, hf, hh⟩
  · rcases h2 with ⟨he, hf⟩ | ⟨he, hf, hg, hh⟩
    · right; right; left; exact ⟨ha, he.trans hc, hb, hf.trans hd⟩
    · right; right; right; exact ⟨ha, hg, hb, hf, hh⟩

theorem on_tick_pos (t : Option FVal) (now : ℕ) (ef xf : FillResult)
    (s : BotState) : PosEvolution s (on_tick t now ef xf s) ef xf := by
  cases t with
  | none => left; exact ⟨rfl, rfl⟩
  | some p =>
    unfold on_tick
    dsimp only
    by_cases hnan : isnanB p = true
    · rw [if_pos hnan]; left; exact ⟨rfl, rfl⟩
    · rw [if_neg hnan]
      apply posEvolution_comp s _ _ ef xf ?_ (check_entry_pos p ef _)
      split
      · cases hcb : s.current_bar with
        | none => left; exact ⟨rfl, rfl⟩
        | some cb => left; exact ⟨rfl, rfl⟩
      · split
        · rcases close_bar_pos xf s with ⟨h1, h2⟩ | ⟨h1, h2, h3, h4⟩
          · left; exact ⟨h1, h2⟩
          · right; exact ⟨h1, h2, h3, h4⟩
        · left; exact ⟨rfl, rfl⟩

theorem runTicks_pos (evs : List TickEv) :
    ∀ s : BotState,
      (s.in_position = false → s.position_entry_price = none) →
      ((runTicks evs s).in_position = false →
        (runTicks evs s).position_entry_price = none) ∧
      ((runTicks evs s).in_position = true →
        (s.in_position = true ∧
          (runTicks evs s).position_entry_price = s.position_entry_price) ∨
        ∃ e ∈ evs, e.efill.status = "Filled" ∧
          (runTicks evs s).position_entry_price = some e.efill.avgFillPrice) := by
  induction evs with
  | nil => exact fun s hs => ⟨hs, fun ht => Or.inl ⟨ht, rfl⟩⟩
  | cons e rest ih =>
    intro s hs
    have hstep := on_tick_pos e.price e.now e.efill e.xfill s
    have hs1ok : (on_tick e.price e.now e.efill e.xfill s).in_position = false →
        (on_tick e.price e.now e.efill e.xfill s).position_entry_price = none := by
      rcases hstep with ⟨h1, h2⟩ | ⟨h1, h2, h3, h4⟩ | ⟨h1, h2, h3, h4⟩ |
        ⟨h1, h2, h3, h4, h5⟩
      · intro hf
        rw [h2]
        exact hs (h1.symm.trans hf)
      · intro hf
        exact absurd (h2.symm.trans hf) (by simp)
      · intro _
        exact h4
      · intro hf
        exact absurd (h2.symm.trans hf) (by simp)
    have hrun : runTicks (e :: rest) s =
        runTicks rest (on_tick e.price e.now e.efill e.xfill s) := rfl
    rw [hrun]
    obtain ⟨ihf, iht⟩ := ih _ hs1ok
    refine ⟨ihf, ?_⟩
    intro ht
    rcases iht ht with ⟨hmid, hent⟩ | ⟨e2, he2, hst, hval⟩
    · rcases hstep with ⟨h1, h2⟩ | ⟨h1, h2, h3, h4⟩ | ⟨h1, h2, h3, h4⟩ |
        ⟨h1, h2, h3, h4, h5⟩
      · left
        exact ⟨h1.symm.trans hmid, hent.trans h2⟩
      · right
        exact ⟨e, by simp, h3, hent.trans h4⟩
      · exact absurd (h2.symm.trans hmid) (by simp)
      · right
        exact ⟨e, by simp, h4, hent.trans h5⟩
    · right
      exact ⟨e2, by simp [he2], hst, hval⟩

/-- C10: `in_position = false` comes with `position_entry_price = none` and
`in_position = true` with the entry order's reported average fill price: the
coupling holds at construction; each tick handler and each bar close evolves
the pair only by keeping it, establishing it from a filled entry reply, or
clearing it on a filled exit reply (non-filled replies change nothing); and
along any run from the initial state a flat bot has no entry price while a
short bot's entry price is the average fill price of the filled entry reply
of some processed tick. -/
theorem C10_position_coupling :
    (initState.in_position = false ∧ initState.position_entry_price = none) ∧
    (∀ (t : Option FVal) (now : ℕ) (ef xf : FillResult) (s : BotState),
      PosEvolution s (on_tick t now ef xf s) ef xf) ∧
    (∀ (xf ef : FillResult) (s : BotState),
      PosEvolution s (close_bar xf s) ef xf) ∧
    (∀ evs : List TickEv,
      ((runTicks evs initState).in_position = false →
        (runTicks evs initState).position_entry_price = none) ∧
      ((runTicks evs initState).in_position = true →
        ∃ e ∈ evs, e.efill.status = "Filled" ∧
          (runTicks evs initState).position_entry_price =
            some e.efill.avgFillPrice)) := by
  refine ⟨⟨rfl, rfl⟩, on_tick_pos, ?_, ?_⟩
  · intro xf ef s
    rcases close_bar_pos xf s with ⟨h1, h2⟩ | ⟨h1, h2, h3, h4⟩
    · left; exact ⟨h1, h2⟩
    · right; right; left; exact ⟨h1, h3, h2, h4⟩
  · intro evs
    obtain ⟨hf, ht⟩ := runTicks_pos evs initState (fun _ => rfl)
    refine ⟨hf, ?_⟩
    intro hpos
    rcases ht hpos with ⟨hinit, _⟩ | h
    · exact absurd hinit (by simp [initState])
    · exact h

/-- Witness for C10 on the empty run. -/
theorem C10_coupling_witness : (runTicks [] initState).position_entry_price = none :=
  (C10_position_coupling.2.2.2 []).1 rfl
